import Mathlib

/-!
# Gabi issuer: a shallow embedding of `issuer.go` and `descriptions.go`

Go's `*big.Int` values are modelled as `Int`.  A Go call can end in three ways:
it returns, it stops with a run-time panic, or it is still inside a loop when the
step budget of the model is used up.  The last two are the errors of
`Except Fault`.  The random source is a stream of draws `rnd : Nat → Int`; the
theorems on the sampler show that the budget only has to reach the first draw the
loop accepts.

The arithmetic of `math/big` and `crypto/rand` is modelled from the documentation
of the Go standard library:

* `Exp(x, y, m)` is `x**y mod |m|`, `x**y` for `m == 0`; for `y < 0` it is `1`
  when `m == 0` and otherwise the power of the modular inverse, `nil` when there
  is none;
* `ModInverse(g, n)` is the inverse of `g` in `ℤ/nℤ` in the range `[0, |n|)`,
  `nil` when `g` and `n` are not relatively prime, a division-by-zero panic for
  `n == 0`;
* `Mod(x, y)` is the Euclidean modulus and panics for `y == 0`;
* `rand.Int(rand.Reader, max)` is a value of `[0, max)` and panics for `max <= 0`.
-/

namespace Gabi

/-- How a call can end without returning. -/
inductive Fault where
  /-- A run-time panic (nil dereference, index out of range, division by zero). -/
  | panic : Fault
  /-- The loop budget of the model was used up while the code was still looping. -/
  | outOfFuel : Fault
  deriving DecidableEq, Repr

deriving instance DecidableEq for Except

/-- The error values of Go's `error` interface (the issuer only passes them on). -/
abbrev GoError := String

/-! ## `math/big` -/

/-- The search behind `ModInverse`: the `x` of `[0, |n|)` with `g * x ≡ 1 (mod n)`,
`nil` when `g` and `n` are not relatively prime. -/
def modInverse? (g n : Int) : Option Int :=
  if Int.gcd g n ≠ 1 then none
  else ((List.range n.natAbs).find? (fun (x : Nat) => (g * (x : Int)) % n == 1 % n)).map Int.ofNat

/-- `new(big.Int).ModInverse(g, n)`: `.ok none` is the `nil` return value. -/
def bigModInverse (g n : Int) : Except Fault (Option Int) :=
  if n = 0 then .error .panic else .ok (modInverse? g n)

/-- `new(big.Int).Exp(x, y, m)`; `none` is the `nil` return value. -/
def bigExp (x y m : Int) : Option Int :=
  if y < 0 then
    if m = 0 then some 1
    else
      match modInverse? x m with
      | none => none
      | some inverse =>
        let z := (inverse ^ y.natAbs) % |m|
        -- the sign of the result follows the sign of `x` for an odd exponent
        if x < 0 ∧ y % 2 = 1 ∧ z ≠ 0 then some (|m| - z) else some z
  else if m = 0 then some (x ^ y.toNat)
  else some ((x ^ y.toNat) % |m|)

/-- `z.Mod(x, y)`: Euclidean modulus, a panic for `y == 0`. -/
def bigMod (x y : Int) : Except Fault Int :=
  if y = 0 then .error .panic else .ok (x % y)

/-- Modelled from the spec: the package constant `bigONE`, declared in another file
of the package; the sampler compares the gcd with it and the spec states the test
as `gcd(r, modulus) = 1`. -/
def bigONE : Int := 1

/-! ## `crypto/rand` -/

/-- `rand.Int(rand.Reader, max)`, with `draw` the value the random source delivers;
the source is taken to deliver a value at every call. -/
def randInt (max draw : Int) : Except Fault Int :=
  if max ≤ 0 then .error .panic else .ok draw

/-! ## Key material and messages -/

/-- Modelled from the spec: `PrivateKey`, declared in another file of the package,
with the primes `P`, `Q` and their cofactors `PPrime`, `QPrime`. -/
structure PrivateKey where
  P : Int
  Q : Int
  PPrime : Int
  QPrime : Int
  deriving DecidableEq, Repr

/-- Modelled from the spec: `PublicKey`, declared in another file of the package,
with the modulus `N`, the bases `Z`, `S` and the ordered bases `R`. -/
structure PublicKey where
  N : Int
  Z : Int
  S : Int
  R : List Int
  deriving DecidableEq, Repr

/-- Modelled from the spec: `CLSignature`, declared in another file of the package,
the triple `A`, `E`, `V`. -/
structure CLSignature where
  A : Int
  E : Int
  V : Int
  deriving DecidableEq, Repr

/-- Modelled from the spec: `ProofS`, declared in another file of the package, the
challenge and the response in the order of the literal `ProofS{c, eResponse}`. -/
structure ProofS where
  C : Int
  EResponse : Int
  deriving DecidableEq, Repr

/-- Modelled from the spec: `IssueCommitmentMessage`, declared in another file of
the package, the holder's commitment `U` and nonce `Nonce2`; `Proofs` is whatever
proof the holder sends along with them. -/
structure IssueCommitmentMessage (H : Type) where
  U : Int
  Nonce2 : Int
  Proofs : H

/-- Modelled from the spec: `IssueSignatureMessage`, declared in another file of
the package, the signature paired with its proof. -/
structure IssueSignatureMessage where
  Signature : CLSignature
  Proof : ProofS
  deriving DecidableEq, Repr

/-- `CredentialIssuer` holds the key material for a credential issuer. -/
structure CredentialIssuer where
  Sk : PrivateKey
  Pk : PublicKey
  Context : Int
  deriving DecidableEq, Repr

/-- The type of `hashCommit`, which is declared in another file of the package and
is a parameter here. -/
abbrev HashCommit := List Int → Int

/-- The type of `signMessageBlockAndCommitment`, which is declared in another file
of the package and is a parameter here: private key, public key, commitment,
attributes and bases, giving Go's pair of a signature pointer and an error, or a
fault. -/
abbrev SignBlock :=
  PrivateKey → PublicKey → Int → List Int → List Int →
    Except Fault (Option CLSignature × Option GoError)

/-! ## `issuer.go` -/

/-- The loop condition of `randomElementMultiplicativeGroup`:
`r.Sign() <= 0 || t.GCD(nil, nil, r, modulus).Cmp(bigONE) != 0`. -/
def rejected (modulus r : Int) : Bool :=
  decide (r ≤ 0) || decide ((Int.gcd r modulus : Int) ≠ bigONE)

/-- The `for` loop of `randomElementMultiplicativeGroup` with current value `r`,
`k` draws already taken from the random source `rnd`, and a budget of iterations. -/
def sampleLoop (modulus : Int) (rnd : Nat → Int) (r : Int) (k : Nat) :
    Nat → Except Fault Int
  | 0 => if rejected modulus r then .error .outOfFuel else .ok r
  | fuel + 1 =>
    if rejected modulus r then
      match randInt modulus (rnd k) with
      | .error f => .error f
      | .ok r' => sampleLoop modulus rnd r' (k + 1) fuel
    else .ok r

/-- `randomElementMultiplicativeGroup(modulus)`: starts from `r = 0`. -/
def randomElementMultiplicativeGroup (modulus : Int) (rnd : Nat → Int) (fuel : Nat) :
    Except Fault Int :=
  sampleLoop modulus rnd 0 0 fuel

/-- `(*CredentialIssuer).proveSignature(signature, nonce2)`. -/
def proveSignature (hashCommit : HashCommit) (i : CredentialIssuer)
    (signature : CLSignature) (nonce2 : Int) (rnd : Nat → Int) (fuel : Nat) :
    Except Fault ProofS := do
  let Q := bigExp signature.A signature.E i.Pk.N
  let groupModulus := i.Sk.PPrime * i.Sk.QPrime
  let d ← bigModInverse signature.E groupModulus
  let eCommit ← randomElementMultiplicativeGroup groupModulus rnd fuel
  -- `Exp` reads its base: a nil `Q` is a nil dereference
  let Q ← match Q with
    | none => Except.error Fault.panic
    | some q => Except.ok q
  -- `eCommit` is positive, so this `Exp` gives a value
  let ACommit ← match bigExp Q eCommit i.Pk.N with
    | none => Except.error Fault.panic
    | some a => Except.ok a
  let c := hashCommit [i.Context, Q, signature.A, nonce2, ACommit]
  -- `Mul` reads both factors: a nil `d` is a nil dereference
  let d ← match d with
    | none => Except.error Fault.panic
    | some d => Except.ok d
  let eResponse := c * d
  let eResponse ← bigMod (eCommit - eResponse) groupModulus
  return ⟨c, eResponse⟩

/-- `(*CredentialIssuer).signCommitmentAndAttributes(U, attributes)`: the slice
expression `i.Pk.R[1:]` panics on an empty `R`. -/
def signCommitmentAndAttributes (sign : SignBlock) (i : CredentialIssuer)
    (U : Int) (attributes : List Int) :
    Except Fault (Option CLSignature × Option GoError) :=
  if i.Pk.R.length < 1 then .error .panic
  else sign i.Sk i.Pk U attributes (i.Pk.R.drop 1)

/-- `(*CredentialIssuer).IssueSignature(msg, attributes, nonce1)`, returning Go's
pair of a message pointer and an error. -/
def IssueSignature {H : Type} (sign : SignBlock) (hashCommit : HashCommit)
    (i : CredentialIssuer) (msg : IssueCommitmentMessage H) (attributes : List Int)
    (_nonce1 : Int) (rnd : Nat → Int) (fuel : Nat) :
    Except Fault (Option IssueSignatureMessage × Option GoError) := do
  let (signature, err) ← signCommitmentAndAttributes sign i msg.U attributes
  match err with
  | some e => return (none, some e)
  | none =>
    -- `proveSignature` reads `signature.A`: a nil signature is a nil dereference
    match signature with
    | none => Except.error Fault.panic
    | some signature =>
      let proof ← proveSignature hashCommit i signature msg.Nonce2 rnd fuel
      return (some ⟨signature, proof⟩, none)

/-! ## `descriptions.go` and the key index of `store.go` -/

/-- `TranslatedString`: the translations with the tag name of each. -/
structure TranslatedString where
  Translations : List (String × String)
  deriving DecidableEq, Repr

/-- `(*TranslatedString).Translation(lang)`. -/
def TranslatedString.Translation (ts : TranslatedString) (lang : String) : String :=
  match ts.Translations.find? (fun translation => translation.1 == lang) with
  | some translation => translation.2
  | none => ""

/-- `Issuer` describes an issuer. -/
structure Issuer where
  HRName : TranslatedString
  HRShortName : TranslatedString
  Name : String
  SchemeManagerName : String
  ContactAddress : String
  ContactEMail : String
  URL : String
  XMLVersion : Int
  deriving DecidableEq, Repr

/-- `AttributeDescription` is a description of an attribute within a credential type. -/
structure AttributeDescription where
  ID : String
  Name : TranslatedString
  Description : TranslatedString
  deriving DecidableEq, Repr

/-- `CredentialType` is a description of a credential type. -/
structure CredentialType where
  HRName : TranslatedString
  HRShortName : TranslatedString
  IssuerName : String
  SchemeManagerName : String
  Name : String
  IsSingleton : Bool
  Description : TranslatedString
  Attributes : List AttributeDescription
  XMLVersion : Int
  deriving DecidableEq, Repr

/-- `(*CredentialType).Identifier()`. -/
def CredentialType.Identifier (cd : CredentialType) : String :=
  cd.SchemeManagerName ++ "." ++ cd.IssuerName ++ "." ++ cd.Name

/-- `(*Issuer).Identifier()`. -/
def Issuer.Identifier (id : Issuer) : String :=
  id.SchemeManagerName ++ "." ++ id.Name

/-- The `PublicKeys` map of `ConfigurationStore` (the global `MetaStore`): a Go map
lookup gives the zero value, the nil slice, for a missing key; `none` is the nil
slice and `some []` an empty slice that is not nil. -/
structure ConfigurationStore where
  PublicKeys : String → Option (List PublicKey)

/-- The index expression `keys[index]` of Go: a run-time panic when the index is
out of range. -/
def sliceIndex {α : Type} (keys : List α) (index : Int) : Except Fault α :=
  if index < 0 ∨ (keys.length : Int) ≤ index then .error .panic
  else
    match keys[index.toNat]? with
    | some key => .ok key
    | none => .error .panic

/-- `(*Issuer).CurrentPublicKey()`; `.ok none` is the nil pointer. -/
def Issuer.CurrentPublicKey (MetaStore : ConfigurationStore) (id : Issuer) :
    Except Fault (Option PublicKey) :=
  match MetaStore.PublicKeys id.Identifier with
  | none => .ok none
  | some keys =>
    if keys.length = 0 then .ok none
    else (sliceIndex keys ((keys.length : Int) - 1)).map some

/-- `(*Issuer).PublicKey(index)`; `.ok none` is the nil pointer. -/
def Issuer.PublicKey (MetaStore : ConfigurationStore) (id : Issuer) (index : Int) :
    Except Fault (Option PublicKey) :=
  match MetaStore.PublicKeys id.Identifier with
  | none => .ok none
  | some keys =>
    if index ≥ (keys.length : Int) then .ok none
    else (sliceIndex keys index).map some

/-! ## Test data

A small key: `P = 7`, `Q = 11`, `PPrime = 3`, `QPrime = 5`, `N = 77`, group order
`15`; the bases are squares modulo `77`. -/

/-- Test data: an issuer with the small key and context `5`. -/
def demoIssuer : CredentialIssuer := ⟨⟨7, 11, 3, 5⟩, ⟨77, 4, 9, [16, 25, 36]⟩, 5⟩

/-- Test data: the signature `A = 4`, `E = 7`; `4` has order `15` modulo `77`. -/
def demoSignature : CLSignature := ⟨4, 7, 0⟩

/-- Test data: a stand-in for the hash, the sum of the values modulo `5`. -/
def demoHash : HashCommit := fun values => values.sum % 5

/-- Test data: a signing step that returns the exponent `9`, which shares the
factor `3` with the group order `15`. -/
def demoSignBad : SignBlock := fun _ _ _ _ _ => .ok (some ⟨4, 9, 0⟩, none)

/-- Test data: the draws `0, 3, 5, 2, 7, 7, …`. -/
def demoDraws : Nat → Int := fun k => [0, 3, 5, 2].getD k 7

/-- Test data: a signing step that fails when there are more attributes than
bases and returns the signature `(4, 7)` otherwise. -/
def demoSign : SignBlock := fun _ _ _ attributes bases =>
  if bases.length < attributes.length then .ok (none, some "too many attributes")
  else .ok (some demoSignature, none)

/-- Test data: the issuer `alice` of the scheme manager `irma-demo`. -/
def demoDescription : Issuer :=
  { HRName := ⟨[("en", "Alice")]⟩, HRShortName := ⟨[("en", "Alice")]⟩, Name := "alice",
    SchemeManagerName := "irma-demo", ContactAddress := "", ContactEMail := "",
    URL := "", XMLVersion := 4 }

/-- Test data: the credential type `idCard` of that issuer. -/
def demoCredential : CredentialType :=
  { HRName := ⟨[("en", "ID card")]⟩, HRShortName := ⟨[("en", "ID")]⟩, IssuerName := "alice",
    SchemeManagerName := "irma-demo", Name := "idCard", IsSingleton := false,
    Description := ⟨[]⟩, Attributes := [], XMLVersion := 4 }

/-- Test data: the first public key of `irma-demo.alice`. -/
def demoKey0 : PublicKey := ⟨77, 4, 9, [16, 25, 36]⟩

/-- Test data: the second public key of `irma-demo.alice`. -/
def demoKey1 : PublicKey := ⟨161, 4, 9, [16, 25]⟩

/-- Test data: a store that knows the two keys of `irma-demo.alice`, and an empty
key list that is not nil for `irma-demo.bob`. -/
def demoStore : ConfigurationStore :=
  ⟨fun identifier =>
    if identifier = "irma-demo.alice" then some [demoKey0, demoKey1]
    else if identifier = "irma-demo.bob" then some []
    else none⟩

/-! ## Lemmas on the arithmetic -/

theorem modInverse?_not_coprime (g n : Int) (h : Int.gcd g n ≠ 1) :
    modInverse? g n = none := by
  simp [modInverse?, h]

theorem modInverse?_coprime (g n : Int) (hn : n ≠ 0) (h : Int.gcd g n = 1) :
    ∃ d, modInverse? g n = some d ∧ 0 ≤ d ∧ d < |n| ∧ (g * d) % n = 1 % n := by
  have hpos : (0 : Int) < |n| := abs_pos.mpr hn
  have hbez : (1 : Int) = g * Int.gcdA g n + n * Int.gcdB g n := by
    have := Int.gcd_eq_gcd_ab g n
    rw [h] at this
    simpa using this
  set x0 : Int := Int.gcdA g n % |n| with hx0
  have hx0nn : 0 ≤ x0 := Int.emod_nonneg _ (ne_of_gt hpos)
  have hx0lt : x0 < |n| := Int.emod_lt_of_pos _ hpos
  have hx0ok : (g * x0) % n = 1 % n := by
    have h1 : (g * x0) % n = (g * Int.gcdA g n) % n := by
      rw [hx0, Int.emod_abs, Int.mul_emod, Int.emod_emod, ← Int.mul_emod]
    rw [h1]
    conv_rhs => rw [hbez]
    simp
  have hmem : x0.toNat ∈ List.range n.natAbs := by
    rw [List.mem_range]
    have : (x0.toNat : Int) < (n.natAbs : Int) := by
      rw [Int.toNat_of_nonneg hx0nn, Int.natCast_natAbs]; exact hx0lt
    exact_mod_cast this
  have hsome : ((List.range n.natAbs).find?
      (fun (x : Nat) => (g * (x : Int)) % n == 1 % n)).isSome := by
    rw [List.find?_isSome]
    refine ⟨x0.toNat, hmem, ?_⟩
    simp [Int.toNat_of_nonneg hx0nn, hx0ok]
  obtain ⟨x, hx⟩ := Option.isSome_iff_exists.mp hsome
  refine ⟨(x : Int), ?_, by positivity, ?_, ?_⟩
  · simp [modInverse?, h, hx]
  · have := List.mem_of_find?_eq_some hx
    rw [List.mem_range] at this
    rw [← Int.natCast_natAbs]
    exact_mod_cast this
  · have := List.find?_some hx
    simpa using this

theorem bigExp_of_nonneg (x y m : Int) (hy : 0 ≤ y) :
    bigExp x y m = some (x ^ y.toNat % m) := by
  unfold bigExp
  rw [if_neg (not_lt.mpr hy)]
  by_cases hm : m = 0
  · simp [hm]
  · simp [hm, Int.emod_abs]

/-! ## Lemmas on the sampler -/

theorem rejected_eq_false_iff (modulus r : Int) :
    rejected modulus r = false ↔ 0 < r ∧ Int.gcd r modulus = 1 := by
  simp [rejected, bigONE]

theorem rejected_eq_true_iff (modulus r : Int) :
    rejected modulus r = true ↔ ¬ (0 < r ∧ Int.gcd r modulus = 1) := by
  rw [← rejected_eq_false_iff]; simp

theorem rejected_zero (modulus : Int) : rejected modulus 0 = true := by
  simp [rejected]

/-- What a returning run of the loop returns: the current value if it passes the
test, otherwise the first later draw that passes it. -/
theorem sampleLoop_ok (modulus : Int) (rnd : Nat → Int) (fuel : Nat) :
    ∀ (r : Int) (k : Nat) (x : Int), sampleLoop modulus rnd r k fuel = .ok x →
      (rejected modulus r = false ∧ x = r) ∨
      (rejected modulus r = true ∧ 0 < modulus ∧
        ∃ j, k ≤ j ∧ j < k + fuel ∧ x = rnd j ∧ rejected modulus (rnd j) = false ∧
          ∀ i, k ≤ i → i < j → rejected modulus (rnd i) = true) := by
  induction fuel with
  | zero =>
    intro r k x h
    by_cases hr : rejected modulus r = true
    · simp [sampleLoop, hr] at h
    · simp only [Bool.not_eq_true] at hr
      simp [sampleLoop, hr] at h
      exact Or.inl ⟨hr, h.symm⟩
  | succ fuel ih =>
    intro r k x h
    by_cases hr : rejected modulus r = true
    · right
      by_cases hm : modulus ≤ 0
      · simp [sampleLoop, hr, randInt, hm] at h
      · simp only [sampleLoop, hr, randInt, hm, if_true, if_false] at h
        refine ⟨hr, not_le.mp hm, ?_⟩
        rcases ih (rnd k) (k + 1) x h with ⟨h1, h2⟩ | ⟨h1, _, j, hj1, hj2, hj3, hj4, hj5⟩
        · exact ⟨k, le_refl k, by omega, h2, h1, fun i hi1 hi2 => absurd hi1 (by omega)⟩
        · refine ⟨j, by omega, by omega, hj3, hj4, ?_⟩
          intro i hi1 hi2
          by_cases hik : i = k
          · rw [hik]; exact h1
          · exact hj5 i (by omega) hi2
    · simp only [Bool.not_eq_true] at hr
      simp [sampleLoop, hr] at h
      exact Or.inl ⟨hr, h.symm⟩

/-- Enough budget gives the result: the loop returns the first draw that passes
the test as soon as the budget reaches it. -/
theorem sampleLoop_found (modulus : Int) (rnd : Nat → Int) (hm : 0 < modulus) (j : Nat)
    (hj : rejected modulus (rnd j) = false) (fuel : Nat) :
    ∀ (r : Int) (k : Nat), rejected modulus r = true → k ≤ j → j < k + fuel →
      (∀ i, k ≤ i → i < j → rejected modulus (rnd i) = true) →
      sampleLoop modulus rnd r k fuel = .ok (rnd j) := by
  induction fuel with
  | zero => intro r k _ h1 h2; omega
  | succ fuel ih =>
    intro r k hr h1 h2 hfirst
    have hm' : ¬ modulus ≤ 0 := not_le.mpr hm
    simp only [sampleLoop, hr, randInt, hm', if_true, if_false]
    by_cases hkj : k = j
    · subst hkj
      cases fuel with
      | zero => simp [sampleLoop, hj]
      | succ fuel => simp [sampleLoop, hj]
    · have hk : rejected modulus (rnd k) = true := hfirst k (le_refl k) (by omega)
      exact ih (rnd k) (k + 1) hk (by omega) (by omega)
        (fun i hi1 hi2 => hfirst i (by omega) hi2)

/-- A value returned by the sampler is the first draw that is positive and coprime
to the modulus, and the modulus is positive. -/
theorem sampler_ok (modulus : Int) (rnd : Nat → Int) (fuel : Nat) (x : Int)
    (h : randomElementMultiplicativeGroup modulus rnd fuel = .ok x) :
    0 < modulus ∧ ∃ j, j < fuel ∧ x = rnd j ∧ 0 < x ∧ Int.gcd x modulus = 1 ∧
      ∀ i, i < j → ¬ (0 < rnd i ∧ Int.gcd (rnd i) modulus = 1) := by
  rcases sampleLoop_ok modulus rnd fuel 0 0 x h with ⟨h1, _⟩ | ⟨_, hm, j, _, hj2, hj3, hj4, hj5⟩
  · rw [rejected_zero] at h1; exact absurd h1 (by simp)
  · refine ⟨hm, j, by omega, hj3, ?_, ?_, ?_⟩
    · rw [hj3]; exact ((rejected_eq_false_iff _ _).mp hj4).1
    · rw [hj3]; exact ((rejected_eq_false_iff _ _).mp hj4).2
    · intro i hi
      exact (rejected_eq_true_iff _ _).mp (hj5 i (Nat.zero_le i) hi)

/-- The sampler returns the first good draw once the budget exceeds its index. -/
theorem sampler_found (modulus : Int) (rnd : Nat → Int) (hm : 0 < modulus) (j fuel : Nat)
    (hj : 0 < rnd j ∧ Int.gcd (rnd j) modulus = 1)
    (hfirst : ∀ i, i < j → ¬ (0 < rnd i ∧ Int.gcd (rnd i) modulus = 1))
    (hfuel : j < fuel) :
    randomElementMultiplicativeGroup modulus rnd fuel = .ok (rnd j) := by
  unfold randomElementMultiplicativeGroup
  exact sampleLoop_found modulus rnd hm j ((rejected_eq_false_iff _ _).mpr hj) fuel 0 0
    (rejected_zero modulus) (Nat.zero_le j) (by omega)
    (fun i _ hi => (rejected_eq_true_iff _ _).mpr (hfirst i hi))

/-- With a modulus that is not positive the sampler never returns. -/
theorem sampler_nonpos (modulus : Int) (rnd : Nat → Int) (fuel : Nat) (hm : modulus ≤ 0) :
    randomElementMultiplicativeGroup modulus rnd fuel =
      .error (if fuel = 0 then Fault.outOfFuel else Fault.panic) := by
  unfold randomElementMultiplicativeGroup
  cases fuel with
  | zero => simp [sampleLoop, rejected_zero]
  | succ fuel => simp [sampleLoop, rejected_zero, randInt, hm]

/-- Some draw within the budget passes the test: the sampler returns. -/
theorem sampler_total (modulus : Int) (rnd : Nat → Int) (hm : 0 < modulus) (j fuel : Nat)
    (hj : 0 < rnd j ∧ Int.gcd (rnd j) modulus = 1) (hfuel : j < fuel) :
    ∃ x, randomElementMultiplicativeGroup modulus rnd fuel = .ok x := by
  have hex : ∃ k, 0 < rnd k ∧ Int.gcd (rnd k) modulus = 1 := ⟨j, hj⟩
  refine ⟨rnd (Nat.find hex), sampler_found modulus rnd hm (Nat.find hex) fuel
    (Nat.find_spec hex) (fun i hi => Nat.find_min hex hi) ?_⟩
  exact lt_of_le_of_lt (Nat.find_min' hex hj) hfuel

/-! ## Lemmas on `proveSignature` -/

/-- The proof that is returned when both `Exp` and `ModInverse` give a value and
the sampler returns `e`. -/
theorem proveSignature_ok (hashCommit : HashCommit) (i : CredentialIssuer)
    (signature : CLSignature) (nonce2 : Int) (rnd : Nat → Int) (fuel : Nat) (Q d e : Int)
    (hQ : bigExp signature.A signature.E i.Pk.N = some Q)
    (hd : modInverse? signature.E (i.Sk.PPrime * i.Sk.QPrime) = some d)
    (hs : randomElementMultiplicativeGroup (i.Sk.PPrime * i.Sk.QPrime) rnd fuel = .ok e) :
    proveSignature hashCommit i signature nonce2 rnd fuel =
      .ok ⟨hashCommit [i.Context, Q, signature.A, nonce2, Q ^ e.toNat % i.Pk.N],
        (e - hashCommit [i.Context, Q, signature.A, nonce2, Q ^ e.toNat % i.Pk.N] * d) %
          (i.Sk.PPrime * i.Sk.QPrime)⟩ := by
  obtain ⟨hm, j, _, _, he, _, _⟩ := sampler_ok _ _ _ _ hs
  have hm0 : i.Sk.PPrime * i.Sk.QPrime ≠ 0 := ne_of_gt hm
  have hA : bigExp Q e i.Pk.N = some (Q ^ e.toNat % i.Pk.N) :=
    bigExp_of_nonneg Q e i.Pk.N (le_of_lt he)
  simp [proveSignature, bind, Except.bind, pure, Except.pure, bigModInverse, hm0, hd, hs,
    hQ, hA, bigMod]

/-- Without an inverse of the exponent, `proveSignature` does not return: it
panics, unless the sampler is still looping when the budget is used up. -/
theorem proveSignature_no_inverse (hashCommit : HashCommit) (i : CredentialIssuer)
    (signature : CLSignature) (nonce2 : Int) (rnd : Nat → Int) (fuel : Nat)
    (hd : modInverse? signature.E (i.Sk.PPrime * i.Sk.QPrime) = none) :
    proveSignature hashCommit i signature nonce2 rnd fuel = .error .panic ∨
      (randomElementMultiplicativeGroup (i.Sk.PPrime * i.Sk.QPrime) rnd fuel =
          .error .outOfFuel ∧
        proveSignature hashCommit i signature nonce2 rnd fuel = .error .outOfFuel) := by
  by_cases hm0 : i.Sk.PPrime * i.Sk.QPrime = 0
  · left
    simp [proveSignature, bind, Except.bind, bigModInverse, hm0]
  · cases hs : randomElementMultiplicativeGroup (i.Sk.PPrime * i.Sk.QPrime) rnd fuel with
    | error f =>
      cases f with
      | panic =>
        left
        simp [proveSignature, bind, Except.bind, bigModInverse, hm0, hs]
      | outOfFuel =>
        right
        simp [proveSignature, bind, Except.bind, bigModInverse, hm0, hs]
    | ok e =>
      left
      obtain ⟨_, j, _, _, he, _, _⟩ := sampler_ok _ _ _ _ hs
      cases hQ : bigExp signature.A signature.E i.Pk.N with
      | none => simp [proveSignature, bind, Except.bind, bigModInverse, hm0, hs, hQ]
      | some Q =>
        have hA : bigExp Q e i.Pk.N = some (Q ^ e.toNat % i.Pk.N) :=
          bigExp_of_nonneg Q e i.Pk.N (le_of_lt he)
        simp [proveSignature, bind, Except.bind, pure, Except.pure, bigModInverse, hm0, hs,
          hQ, hA, hd]

/-- A returned proof comes from values of `Exp`, `ModInverse` and the sampler. -/
theorem proveSignature_inv (hashCommit : HashCommit) (i : CredentialIssuer)
    (signature : CLSignature) (nonce2 : Int) (rnd : Nat → Int) (fuel : Nat) (p : ProofS)
    (h : proveSignature hashCommit i signature nonce2 rnd fuel = .ok p) :
    ∃ Q d e, bigExp signature.A signature.E i.Pk.N = some Q ∧
      modInverse? signature.E (i.Sk.PPrime * i.Sk.QPrime) = some d ∧
      randomElementMultiplicativeGroup (i.Sk.PPrime * i.Sk.QPrime) rnd fuel = .ok e ∧
      p = ⟨hashCommit [i.Context, Q, signature.A, nonce2, Q ^ e.toNat % i.Pk.N],
        (e - hashCommit [i.Context, Q, signature.A, nonce2, Q ^ e.toNat % i.Pk.N] * d) %
          (i.Sk.PPrime * i.Sk.QPrime)⟩ := by
  cases hd : modInverse? signature.E (i.Sk.PPrime * i.Sk.QPrime) with
  | none =>
    rcases proveSignature_no_inverse hashCommit i signature nonce2 rnd fuel hd with h1 | ⟨_, h1⟩
    · rw [h1] at h; cases h
    · rw [h1] at h; cases h
  | some d =>
    cases hs : randomElementMultiplicativeGroup (i.Sk.PPrime * i.Sk.QPrime) rnd fuel with
    | error f =>
      by_cases hm0 : i.Sk.PPrime * i.Sk.QPrime = 0
      · simp [proveSignature, bind, Except.bind, bigModInverse, hm0] at h
      · simp [proveSignature, bind, Except.bind, bigModInverse, hm0, hs] at h
    | ok e =>
      cases hQ : bigExp signature.A signature.E i.Pk.N with
      | none =>
        obtain ⟨hm, _⟩ := sampler_ok _ _ _ _ hs
        have hm0 : i.Sk.PPrime * i.Sk.QPrime ≠ 0 := ne_of_gt hm
        simp [proveSignature, bind, Except.bind, bigModInverse, hm0, hs, hQ] at h
      | some Q =>
        refine ⟨Q, d, e, rfl, rfl, rfl, ?_⟩
        have := proveSignature_ok hashCommit i signature nonce2 rnd fuel Q d e hQ hd hs
        rw [this] at h
        exact (Except.ok.inj h).symm

/-! ## The algebra of the proof of knowledge -/

/-- In a group where `A ^ g ≡ 1`, powers of `A` depend on the exponent modulo `g`. -/
theorem pow_modEq_of_order (A N : Int) (g : Nat) (hA : A ^ g ≡ 1 [ZMOD N]) (x y : Nat)
    (hxy : (x : Int) ≡ (y : Int) [ZMOD (g : Int)]) : A ^ x ≡ A ^ y [ZMOD N] := by
  have key : ∀ a b : Nat, a ≤ b → a ≡ b [MOD g] → A ^ a ≡ A ^ b [ZMOD N] := by
    intro a b hab h
    obtain ⟨k, hk⟩ := (Nat.modEq_iff_dvd' hab).mp h
    have hb : b = a + g * k := by omega
    rw [hb, pow_add, pow_mul]
    have h1 : (A ^ g) ^ k ≡ 1 ^ k [ZMOD N] := Int.ModEq.pow k hA
    have h2 : A ^ a * (A ^ g) ^ k ≡ A ^ a * 1 ^ k [ZMOD N] := Int.ModEq.mul_left _ h1
    simpa using h2.symm
  have hnat : x ≡ y [MOD g] := Int.natCast_modEq_iff.mp hxy
  rcases le_total x y with h | h
  · exact key x y h hnat
  · exact (key y x h hnat.symm).symm

/-- The exponent identity behind the response: `c + E * eResponse ≡ E * eCommit`
modulo the group order, for `eResponse = (eCommit - c * d) mod groupOrder`. -/
theorem response_exponent (E go c d e : Int) (hd : (E * d) % go = 1 % go) :
    c + E * ((e - c * d) % go) ≡ E * e [ZMOD go] := by
  have h1 : (e - c * d) % go ≡ e - c * d [ZMOD go] := Int.mod_modEq _ _
  have h2 : E * ((e - c * d) % go) ≡ E * (e - c * d) [ZMOD go] := Int.ModEq.mul_left _ h1
  have h3 : E * d ≡ 1 [ZMOD go] := hd
  have h4 : c * (E * d) ≡ c * 1 [ZMOD go] := Int.ModEq.mul_left _ h3
  have h5 : c + E * (e - c * d) = E * e + (c - c * (E * d)) := by ring
  have h6 : c - c * (E * d) ≡ c - c * 1 [ZMOD go] := Int.ModEq.sub (Int.ModEq.refl c) h4
  calc c + E * ((e - c * d) % go) ≡ c + E * (e - c * d) [ZMOD go] := Int.ModEq.add_left _ h2
    _ = E * e + (c - c * (E * d)) := h5
    _ ≡ E * e + (c - c * 1) [ZMOD go] := Int.ModEq.add_left _ h6
    _ = E * e := by ring

/-- The verification equation of the proof of knowledge: with `Q = A ^ E mod N` and
`eResponse = (eCommit - c * d) mod groupOrder`, `A ^ c * Q ^ eResponse` and
`Q ^ eCommit` agree modulo `N`. -/
theorem verification_equation (A E N go c d e : Int) (hE : 0 ≤ E) (hc : 0 ≤ c) (he : 0 ≤ e)
    (hgo : 0 < go) (hA : A ^ go.toNat % N = 1 % N) (hd : (E * d) % go = 1 % go) :
    (A ^ c.toNat * (A ^ E.toNat % N) ^ ((e - c * d) % go).toNat) % N =
      (A ^ E.toNat % N) ^ e.toNat % N := by
  have hr : 0 ≤ (e - c * d) % go := Int.emod_nonneg _ (ne_of_gt hgo)
  have hQ : A ^ E.toNat % N ≡ A ^ E.toNat [ZMOD N] := Int.mod_modEq _ _
  have hexp : ((c.toNat + E.toNat * ((e - c * d) % go).toNat : Nat) : Int) ≡
      ((E.toNat * e.toNat : Nat) : Int) [ZMOD ((go.toNat : Nat) : Int)] := by
    push_cast
    rw [Int.toNat_of_nonneg hE, Int.toNat_of_nonneg hc, Int.toNat_of_nonneg he,
      Int.toNat_of_nonneg hr, Int.toNat_of_nonneg (le_of_lt hgo)]
    exact response_exponent E go c d e hd
  have hpow := pow_modEq_of_order A N go.toNat hA _ _ hexp
  have h1 : (A ^ E.toNat % N) ^ ((e - c * d) % go).toNat ≡
      (A ^ E.toNat) ^ ((e - c * d) % go).toNat [ZMOD N] := Int.ModEq.pow _ hQ
  have h2 : (A ^ E.toNat % N) ^ e.toNat ≡ (A ^ E.toNat) ^ e.toNat [ZMOD N] :=
    Int.ModEq.pow _ hQ
  have h3 : A ^ c.toNat * (A ^ E.toNat % N) ^ ((e - c * d) % go).toNat ≡
      A ^ c.toNat * (A ^ E.toNat) ^ ((e - c * d) % go).toNat [ZMOD N] :=
    Int.ModEq.mul_left _ h1
  show _ ≡ _ [ZMOD N]
  calc A ^ c.toNat * (A ^ E.toNat % N) ^ ((e - c * d) % go).toNat
      ≡ A ^ c.toNat * (A ^ E.toNat) ^ ((e - c * d) % go).toNat [ZMOD N] := h3
    _ = A ^ (c.toNat + E.toNat * ((e - c * d) % go).toNat) := by rw [pow_add, pow_mul]
    _ ≡ A ^ (E.toNat * e.toNat) [ZMOD N] := hpow
    _ = (A ^ E.toNat) ^ e.toNat := by rw [pow_mul]
    _ ≡ (A ^ E.toNat % N) ^ e.toNat [ZMOD N] := h2.symm


/-- C1 (proof round trip): for a signature `(A, E)` with `E > 0`, `E` coprime to
the group order `PPrime * QPrime` and `A ^ groupOrder ≡ 1 (mod N)`, a hash with
non-negative output and a draw `eCommit` of the sampler, `proveSignature` returns a
proof `(c, eResponse)` for which the verifier's `A ^ c * Q ^ eResponse mod N`, with
`Q = A ^ E mod N`, equals the issuer's `Q ^ eCommit mod N`, and hashing
`[context, Q, A, nonce2, ACommit']` gives `c` again. -/
theorem proof_round_trip (hashCommit : HashCommit) (i : CredentialIssuer)
    (signature : CLSignature) (nonce2 : Int) (rnd : Nat → Int) (fuel : Nat) (eCommit : Int)
    (hE : 0 < signature.E)
    (hgcd : Int.gcd signature.E (i.Sk.PPrime * i.Sk.QPrime) = 1)
    (hA : signature.A ^ (i.Sk.PPrime * i.Sk.QPrime).toNat % i.Pk.N = 1 % i.Pk.N)
    (hhash : ∀ values, 0 ≤ hashCommit values)
    (hs : randomElementMultiplicativeGroup (i.Sk.PPrime * i.Sk.QPrime) rnd fuel =
      .ok eCommit) :
    ∃ p, proveSignature hashCommit i signature nonce2 rnd fuel = .ok p ∧
      (signature.A ^ p.C.toNat *
          (signature.A ^ signature.E.toNat % i.Pk.N) ^ p.EResponse.toNat) % i.Pk.N =
        (signature.A ^ signature.E.toNat % i.Pk.N) ^ eCommit.toNat % i.Pk.N ∧
      hashCommit [i.Context, signature.A ^ signature.E.toNat % i.Pk.N, signature.A, nonce2,
        (signature.A ^ p.C.toNat *
          (signature.A ^ signature.E.toNat % i.Pk.N) ^ p.EResponse.toNat) % i.Pk.N] = p.C := by
  obtain ⟨hm, j, _, _, he, _, _⟩ := sampler_ok _ _ _ _ hs
  obtain ⟨d, hd, _, _, hinv⟩ := modInverse?_coprime signature.E _ (ne_of_gt hm) hgcd
  have hQ := bigExp_of_nonneg signature.A signature.E i.Pk.N (le_of_lt hE)
  have hp := proveSignature_ok hashCommit i signature nonce2 rnd fuel _ d eCommit hQ hd hs
  have hv := verification_equation signature.A signature.E i.Pk.N (i.Sk.PPrime * i.Sk.QPrime)
    (hashCommit [i.Context, signature.A ^ signature.E.toNat % i.Pk.N, signature.A, nonce2,
      (signature.A ^ signature.E.toNat % i.Pk.N) ^ eCommit.toNat % i.Pk.N]) d eCommit
    (le_of_lt hE) (hhash _) (le_of_lt he) hm hA hinv
  refine ⟨_, hp, hv, ?_⟩
  simp only []
  rw [hv]

theorem proof_round_trip_witness :
    ∃ p, proveSignature demoHash demoIssuer demoSignature 9 (fun _ => 2) 1 = .ok p ∧
      ((4 : Int) ^ p.C.toNat * ((4 : Int) ^ 7 % 77) ^ p.EResponse.toNat) % 77 =
        ((4 : Int) ^ 7 % 77) ^ 2 % 77 ∧
      demoHash [5, (4 : Int) ^ 7 % 77, 4, 9,
        ((4 : Int) ^ p.C.toNat * ((4 : Int) ^ 7 % 77) ^ p.EResponse.toNat) % 77] = p.C :=
  proof_round_trip demoHash demoIssuer demoSignature 9 (fun _ => 2) 1 2
    (by decide) (by decide) (by decide) (fun values => Int.emod_nonneg _ (by decide)) (by rfl)

/-- C2, as stated, fails: on the key `P = 7`, `Q = 11`, `N = 77` with group order
`15`, the signature `A = 4`, `E = 7` and the draw `eCommit = 2`, the proof is
`(c, eResponse) = (1, 4)`, and `Q ^ eResponse * (Q ^ E) ^ c mod N` is `16` while
`Q ^ eCommit mod N` is `58`; the hash of the tuple with `16` is not `c`. -/
theorem spec_verifier_formula_fails :
    demoIssuer.Pk.N = demoIssuer.Sk.P * demoIssuer.Sk.Q ∧
    demoIssuer.Sk.P = 2 * demoIssuer.Sk.PPrime + 1 ∧
    demoIssuer.Sk.Q = 2 * demoIssuer.Sk.QPrime + 1 ∧
    Int.gcd demoSignature.E (demoIssuer.Sk.PPrime * demoIssuer.Sk.QPrime) = 1 ∧
    demoSignature.A ^ (demoIssuer.Sk.PPrime * demoIssuer.Sk.QPrime).toNat % demoIssuer.Pk.N
      = 1 ∧
    randomElementMultiplicativeGroup (demoIssuer.Sk.PPrime * demoIssuer.Sk.QPrime)
      (fun _ => 2) 1 = .ok 2 ∧
    ∃ p, proveSignature demoHash demoIssuer demoSignature 9 (fun _ => 2) 1 = .ok p ∧
      ¬ (((demoSignature.A ^ demoSignature.E.toNat % demoIssuer.Pk.N) ^ p.EResponse.toNat *
          ((demoSignature.A ^ demoSignature.E.toNat % demoIssuer.Pk.N) ^
            demoSignature.E.toNat) ^ p.C.toNat) % demoIssuer.Pk.N =
        (demoSignature.A ^ demoSignature.E.toNat % demoIssuer.Pk.N) ^ (2 : Int).toNat %
          demoIssuer.Pk.N) ∧
      demoHash [demoIssuer.Context, demoSignature.A ^ demoSignature.E.toNat % demoIssuer.Pk.N,
        demoSignature.A, 9,
        ((demoSignature.A ^ demoSignature.E.toNat % demoIssuer.Pk.N) ^ p.EResponse.toNat *
          ((demoSignature.A ^ demoSignature.E.toNat % demoIssuer.Pk.N) ^
            demoSignature.E.toNat) ^ p.C.toNat) % demoIssuer.Pk.N] ≠ p.C :=
  ⟨by decide, by decide, by decide, by decide, by decide, by rfl,
    ⟨1, 4⟩, by rfl, by decide, by decide⟩

/-- C2 (amended): for a signature `(A, E)` with `E ≥ 0`, `E` coprime to the group
order and `A ^ groupOrder ≡ 1 (mod N)`, a hash with non-negative output and a draw
`eCommit` of the sampler, the proof `(c, eResponse)` of `proveSignature` satisfies
`Q ^ eResponse * A ^ c ≡ Q ^ eCommit (mod N)` with `Q = A ^ E mod N`, so that a
verifier recomputing `ACommit' = Q ^ eResponse * A ^ c mod N` gets the challenge `c`
again; the factor `A` is `Q ^ d` for the inverse `d` of `E`, not `Q ^ E`. -/
theorem verifier_formula_amended (hashCommit : HashCommit) (i : CredentialIssuer)
    (signature : CLSignature) (nonce2 : Int) (rnd : Nat → Int) (fuel : Nat) (eCommit : Int)
    (hE : 0 ≤ signature.E)
    (hgcd : Int.gcd signature.E (i.Sk.PPrime * i.Sk.QPrime) = 1)
    (hA : signature.A ^ (i.Sk.PPrime * i.Sk.QPrime).toNat % i.Pk.N = 1 % i.Pk.N)
    (hhash : ∀ values, 0 ≤ hashCommit values)
    (hs : randomElementMultiplicativeGroup (i.Sk.PPrime * i.Sk.QPrime) rnd fuel =
      .ok eCommit) :
    ∃ p, proveSignature hashCommit i signature nonce2 rnd fuel = .ok p ∧
      ((signature.A ^ signature.E.toNat % i.Pk.N) ^ p.EResponse.toNat *
          signature.A ^ p.C.toNat) % i.Pk.N =
        (signature.A ^ signature.E.toNat % i.Pk.N) ^ eCommit.toNat % i.Pk.N ∧
      hashCommit [i.Context, signature.A ^ signature.E.toNat % i.Pk.N, signature.A, nonce2,
        ((signature.A ^ signature.E.toNat % i.Pk.N) ^ p.EResponse.toNat *
          signature.A ^ p.C.toNat) % i.Pk.N] = p.C ∧
      ∃ d, 0 ≤ d ∧ (signature.E * d) % (i.Sk.PPrime * i.Sk.QPrime) =
          1 % (i.Sk.PPrime * i.Sk.QPrime) ∧
        (signature.A ^ signature.E.toNat % i.Pk.N) ^ d.toNat % i.Pk.N =
          signature.A % i.Pk.N := by
  obtain ⟨hm, j, _, _, he, _, _⟩ := sampler_ok _ _ _ _ hs
  obtain ⟨d, hd, hd0, _, hinv⟩ := modInverse?_coprime signature.E _ (ne_of_gt hm) hgcd
  have hQ := bigExp_of_nonneg signature.A signature.E i.Pk.N hE
  have hp := proveSignature_ok hashCommit i signature nonce2 rnd fuel _ d eCommit hQ hd hs
  have hv := verification_equation signature.A signature.E i.Pk.N (i.Sk.PPrime * i.Sk.QPrime)
    (hashCommit [i.Context, signature.A ^ signature.E.toNat % i.Pk.N, signature.A, nonce2,
      (signature.A ^ signature.E.toNat % i.Pk.N) ^ eCommit.toNat % i.Pk.N]) d eCommit
    hE (hhash _) (le_of_lt he) hm hA hinv
  rw [mul_comm] at hv
  refine ⟨_, hp, hv, ?_, d, hd0, hinv, ?_⟩
  · simp only []
    rw [hv]
  · have hexp : ((signature.E.toNat * d.toNat : Nat) : Int) ≡ ((1 : Nat) : Int)
        [ZMOD (((i.Sk.PPrime * i.Sk.QPrime).toNat : Nat) : Int)] := by
      push_cast
      rw [Int.toNat_of_nonneg hE, Int.toNat_of_nonneg hd0, Int.toNat_of_nonneg (le_of_lt hm)]
      exact hinv
    have hpow := pow_modEq_of_order signature.A i.Pk.N _ hA _ _ hexp
    have hQ' : signature.A ^ signature.E.toNat % i.Pk.N ≡ signature.A ^ signature.E.toNat
        [ZMOD i.Pk.N] := Int.mod_modEq _ _
    show _ ≡ _ [ZMOD i.Pk.N]
    calc (signature.A ^ signature.E.toNat % i.Pk.N) ^ d.toNat
        ≡ (signature.A ^ signature.E.toNat) ^ d.toNat [ZMOD i.Pk.N] := Int.ModEq.pow _ hQ'
      _ = signature.A ^ (signature.E.toNat * d.toNat) := by rw [pow_mul]
      _ ≡ signature.A ^ 1 [ZMOD i.Pk.N] := hpow
      _ = signature.A := pow_one _

theorem verifier_formula_amended_witness :
    ∃ p, proveSignature demoHash demoIssuer demoSignature 9 (fun _ => 2) 1 = .ok p ∧
      (((4 : Int) ^ 7 % 77) ^ p.EResponse.toNat * (4 : Int) ^ p.C.toNat) % 77 =
        ((4 : Int) ^ 7 % 77) ^ 2 % 77 ∧
      demoHash [5, (4 : Int) ^ 7 % 77, 4, 9,
        (((4 : Int) ^ 7 % 77) ^ p.EResponse.toNat * (4 : Int) ^ p.C.toNat) % 77] = p.C ∧
      ∃ d : Int, 0 ≤ d ∧ (7 * d) % (3 * 5) = 1 % (3 * 5) ∧
        ((4 : Int) ^ 7 % 77) ^ d.toNat % 77 = 4 % 77 :=
  verifier_formula_amended demoHash demoIssuer demoSignature 9 (fun _ => 2) 1 2
    (by decide) (by decide) (by decide) (fun values => Int.emod_nonneg _ (by decide)) (by rfl)

/-- C9 (the algorithm of `proveSignature`): for `E` coprime to the group order and
a draw `eCommit` of the sampler there is the inverse `d` of `E` modulo the group
order, `0 ≤ d < groupOrder`, such that every returned proof is
`(c, eResponse)` with `c = hashCommit [context, Q, A, nonce2, Q ^ eCommit mod N]`
for the value `Q` of `Exp(A, E, N)` and `eResponse = (eCommit - c * d) mod groupOrder`
in `[0, groupOrder)`; for `E ≥ 0` the proof is returned and `Q = A ^ E mod N`. -/
theorem proveSignature_computes (hashCommit : HashCommit) (i : CredentialIssuer)
    (signature : CLSignature) (nonce2 : Int) (rnd : Nat → Int) (fuel : Nat) (eCommit : Int)
    (hgcd : Int.gcd signature.E (i.Sk.PPrime * i.Sk.QPrime) = 1)
    (hs : randomElementMultiplicativeGroup (i.Sk.PPrime * i.Sk.QPrime) rnd fuel =
      .ok eCommit) :
    ∃ d, 0 ≤ d ∧ d < i.Sk.PPrime * i.Sk.QPrime ∧
      (signature.E * d) % (i.Sk.PPrime * i.Sk.QPrime) = 1 % (i.Sk.PPrime * i.Sk.QPrime) ∧
      (∀ p, proveSignature hashCommit i signature nonce2 rnd fuel = .ok p →
        ∃ Q, bigExp signature.A signature.E i.Pk.N = some Q ∧
          p.C = hashCommit [i.Context, Q, signature.A, nonce2, Q ^ eCommit.toNat % i.Pk.N] ∧
          p.EResponse = (eCommit - p.C * d) % (i.Sk.PPrime * i.Sk.QPrime) ∧
          0 ≤ p.EResponse ∧ p.EResponse < i.Sk.PPrime * i.Sk.QPrime) ∧
      (0 ≤ signature.E →
        proveSignature hashCommit i signature nonce2 rnd fuel =
          .ok ⟨hashCommit [i.Context, signature.A ^ signature.E.toNat % i.Pk.N, signature.A,
              nonce2, (signature.A ^ signature.E.toNat % i.Pk.N) ^ eCommit.toNat % i.Pk.N],
            (eCommit - hashCommit [i.Context, signature.A ^ signature.E.toNat % i.Pk.N,
              signature.A, nonce2,
              (signature.A ^ signature.E.toNat % i.Pk.N) ^ eCommit.toNat % i.Pk.N] * d) %
              (i.Sk.PPrime * i.Sk.QPrime)⟩) := by
  obtain ⟨hm, _⟩ := sampler_ok _ _ _ _ hs
  obtain ⟨d, hd, hd0, hdlt, hinv⟩ := modInverse?_coprime signature.E _ (ne_of_gt hm) hgcd
  rw [abs_of_pos hm] at hdlt
  refine ⟨d, hd0, hdlt, hinv, ?_, ?_⟩
  · intro p hp
    obtain ⟨Q, d', e, hQ, hd', he, hpe⟩ :=
      proveSignature_inv hashCommit i signature nonce2 rnd fuel p hp
    have hdd : d' = d := by rw [hd] at hd'; exact (Option.some.inj hd').symm
    have hee : e = eCommit := by rw [hs] at he; exact (Except.ok.inj he).symm
    subst hdd hee hpe
    exact ⟨Q, hQ, rfl, rfl, Int.emod_nonneg _ (ne_of_gt hm), Int.emod_lt_of_pos _ hm⟩
  · intro hE
    exact proveSignature_ok hashCommit i signature nonce2 rnd fuel _ d eCommit
      (bigExp_of_nonneg signature.A signature.E i.Pk.N hE) hd hs

theorem proveSignature_computes_witness :
    ∃ d, 0 ≤ d ∧ d < 3 * 5 ∧ (7 * d) % (3 * 5) = 1 % (3 * 5) ∧
      (∀ p, proveSignature demoHash demoIssuer demoSignature 9 (fun _ => 2) 1 = .ok p →
        ∃ Q, bigExp 4 7 77 = some Q ∧
          p.C = demoHash [5, Q, 4, 9, Q ^ (2 : Int).toNat % 77] ∧
          p.EResponse = (2 - p.C * d) % (3 * 5) ∧
          0 ≤ p.EResponse ∧ p.EResponse < 3 * 5) ∧
      ((0 : Int) ≤ 7 →
        proveSignature demoHash demoIssuer demoSignature 9 (fun _ => 2) 1 =
          .ok ⟨demoHash [5, (4 : Int) ^ 7 % 77, 4, 9, ((4 : Int) ^ 7 % 77) ^ 2 % 77],
            (2 - demoHash [5, (4 : Int) ^ 7 % 77, 4, 9, ((4 : Int) ^ 7 % 77) ^ 2 % 77] * d) %
              (3 * 5)⟩) :=
  proveSignature_computes demoHash demoIssuer demoSignature 9 (fun _ => 2) 1 2
    (by decide) (by rfl)

/-- C3 (freshness): for a fixed key, context, signature and nonce, two runs of
`proveSignature` whose samplers return distinct draws `eCommit1 ≠ eCommit2` below
the group order never return the same proof, whatever `hashCommit` is; for `E ≥ 0`
coprime to the group order both runs return, with different proofs. -/
theorem proveSignature_fresh (hashCommit : HashCommit) (i : CredentialIssuer)
    (signature : CLSignature) (nonce2 : Int) (rnd1 rnd2 : Nat → Int) (fuel1 fuel2 : Nat)
    (eCommit1 eCommit2 : Int)
    (hgcd : Int.gcd signature.E (i.Sk.PPrime * i.Sk.QPrime) = 1)
    (hs1 : randomElementMultiplicativeGroup (i.Sk.PPrime * i.Sk.QPrime) rnd1 fuel1 =
      .ok eCommit1)
    (hs2 : randomElementMultiplicativeGroup (i.Sk.PPrime * i.Sk.QPrime) rnd2 fuel2 =
      .ok eCommit2)
    (h1 : eCommit1 < i.Sk.PPrime * i.Sk.QPrime) (h2 : eCommit2 < i.Sk.PPrime * i.Sk.QPrime)
    (hne : eCommit1 ≠ eCommit2) :
    (∀ p1 p2, proveSignature hashCommit i signature nonce2 rnd1 fuel1 = .ok p1 →
      proveSignature hashCommit i signature nonce2 rnd2 fuel2 = .ok p2 → p1 ≠ p2) ∧
    (0 ≤ signature.E →
      ∃ p1 p2, proveSignature hashCommit i signature nonce2 rnd1 fuel1 = .ok p1 ∧
        proveSignature hashCommit i signature nonce2 rnd2 fuel2 = .ok p2 ∧ p1 ≠ p2) := by
  have hinj : ∀ p1 p2, proveSignature hashCommit i signature nonce2 rnd1 fuel1 = .ok p1 →
      proveSignature hashCommit i signature nonce2 rnd2 fuel2 = .ok p2 → p1 ≠ p2 := by
    intro p1 p2 hp1 hp2 heq
    obtain ⟨_, _, _, _, he1, _, _⟩ := sampler_ok _ _ _ _ hs1
    obtain ⟨_, _, _, _, he2, _, _⟩ := sampler_ok _ _ _ _ hs2
    obtain ⟨Q, d, e, hQ, hd, he, hpe⟩ :=
      proveSignature_inv hashCommit i signature nonce2 rnd1 fuel1 p1 hp1
    obtain ⟨Q', d', e', hQ', hd', he', hpe'⟩ :=
      proveSignature_inv hashCommit i signature nonce2 rnd2 fuel2 p2 hp2
    have hee : e = eCommit1 := by rw [hs1] at he; exact (Except.ok.inj he).symm
    have hee' : e' = eCommit2 := by rw [hs2] at he'; exact (Except.ok.inj he').symm
    have hdd : d = d' := by rw [hd] at hd'; exact Option.some.inj hd'
    subst hee hee' hdd
    rw [hpe, hpe'] at heq
    have hc := congrArg ProofS.C heq
    have hr := congrArg ProofS.EResponse heq
    simp only [] at hc hr
    rw [← hc] at hr
    have hmod : e - hashCommit [i.Context, Q, signature.A, nonce2, Q ^ e.toNat % i.Pk.N] * d ≡
        e' - hashCommit [i.Context, Q, signature.A, nonce2, Q ^ e.toNat % i.Pk.N] * d
        [ZMOD (i.Sk.PPrime * i.Sk.QPrime)] := hr
    have hmod' : e ≡ e' [ZMOD (i.Sk.PPrime * i.Sk.QPrime)] := by
      have := Int.ModEq.add_right
        (hashCommit [i.Context, Q, signature.A, nonce2, Q ^ e.toNat % i.Pk.N] * d) hmod
      simpa using this
    have : e % (i.Sk.PPrime * i.Sk.QPrime) = e' % (i.Sk.PPrime * i.Sk.QPrime) := hmod'
    rw [Int.emod_eq_of_lt (le_of_lt he1) h1, Int.emod_eq_of_lt (le_of_lt he2) h2] at this
    exact hne this
  refine ⟨hinj, ?_⟩
  intro hE
  obtain ⟨hm, _⟩ := sampler_ok _ _ _ _ hs1
  obtain ⟨d, hd, _⟩ := modInverse?_coprime signature.E _ (ne_of_gt hm) hgcd
  have hQ := bigExp_of_nonneg signature.A signature.E i.Pk.N hE
  have hp1 := proveSignature_ok hashCommit i signature nonce2 rnd1 fuel1 _ d eCommit1 hQ hd hs1
  have hp2 := proveSignature_ok hashCommit i signature nonce2 rnd2 fuel2 _ d eCommit2 hQ hd hs2
  exact ⟨_, _, hp1, hp2, hinj _ _ hp1 hp2⟩

theorem proveSignature_fresh_witness :
    (∀ p1 p2, proveSignature demoHash demoIssuer demoSignature 9 (fun _ => 2) 1 = .ok p1 →
      proveSignature demoHash demoIssuer demoSignature 9 (fun _ => 4) 1 = .ok p2 → p1 ≠ p2) ∧
    ((0 : Int) ≤ 7 →
      ∃ p1 p2, proveSignature demoHash demoIssuer demoSignature 9 (fun _ => 2) 1 = .ok p1 ∧
        proveSignature demoHash demoIssuer demoSignature 9 (fun _ => 4) 1 = .ok p2 ∧
        p1 ≠ p2) :=
  proveSignature_fresh demoHash demoIssuer demoSignature 9 (fun _ => 2) (fun _ => 4) 1 1 2 4
    (by decide) (by rfl) (by rfl) (by decide) (by decide) (by decide)

/-! ## Lemmas on `IssueSignature` -/

theorem IssueSignature_failed {H : Type} (sign : SignBlock) (hashCommit : HashCommit)
    (i : CredentialIssuer) (msg : IssueCommitmentMessage H) (attributes : List Int)
    (nonce1 : Int) (rnd : Nat → Int) (fuel : Nat) (s : Option CLSignature) (e : GoError)
    (h : signCommitmentAndAttributes sign i msg.U attributes = .ok (s, some e)) :
    IssueSignature sign hashCommit i msg attributes nonce1 rnd fuel = .ok (none, some e) := by
  simp [IssueSignature, bind, Except.bind, pure, Except.pure, h]

theorem IssueSignature_signed {H : Type} (sign : SignBlock) (hashCommit : HashCommit)
    (i : CredentialIssuer) (msg : IssueCommitmentMessage H) (attributes : List Int)
    (nonce1 : Int) (rnd : Nat → Int) (fuel : Nat) (sig : CLSignature)
    (h : signCommitmentAndAttributes sign i msg.U attributes = .ok (some sig, none)) :
    IssueSignature sign hashCommit i msg attributes nonce1 rnd fuel =
      (proveSignature hashCommit i sig msg.Nonce2 rnd fuel).map
        (fun proof => (some ⟨sig, proof⟩, none)) := by
  simp only [IssueSignature, bind, Except.bind, pure, Except.pure, h]
  cases proveSignature hashCommit i sig msg.Nonce2 rnd fuel <;> rfl

/-- C4 (non-invertibility rejection): when the exponent `E` is not coprime to the
group order `PPrime * QPrime`, `proveSignature` never returns a proof: it ends in a
panic, unless the sampler is still looping when the budget is used up, and it does
panic as soon as a draw within the budget passes the sampler's test. The same holds
for `IssueSignature` when the signing step returned such a signature. -/
theorem non_invertible_rejected (hashCommit : HashCommit) (i : CredentialIssuer)
    (signature : CLSignature) (nonce2 : Int) (rnd : Nat → Int) (fuel : Nat)
    (hgcd : Int.gcd signature.E (i.Sk.PPrime * i.Sk.QPrime) ≠ 1) :
    (∀ p, proveSignature hashCommit i signature nonce2 rnd fuel ≠ .ok p) ∧
    (proveSignature hashCommit i signature nonce2 rnd fuel = .error .panic ∨
      (randomElementMultiplicativeGroup (i.Sk.PPrime * i.Sk.QPrime) rnd fuel =
          .error .outOfFuel ∧
        proveSignature hashCommit i signature nonce2 rnd fuel = .error .outOfFuel)) ∧
    (∀ j, j < fuel → 0 < rnd j → Int.gcd (rnd j) (i.Sk.PPrime * i.Sk.QPrime) = 1 →
      proveSignature hashCommit i signature nonce2 rnd fuel = .error .panic) ∧
    (∀ (H : Type) (sign : SignBlock) (msg : IssueCommitmentMessage H)
        (attributes : List Int) (nonce1 : Int),
      signCommitmentAndAttributes sign i msg.U attributes = .ok (some signature, none) →
      (∀ r, IssueSignature sign hashCommit i msg attributes nonce1 rnd fuel ≠ .ok r) ∧
      (IssueSignature sign hashCommit i msg attributes nonce1 rnd fuel = .error .panic ∨
        (randomElementMultiplicativeGroup (i.Sk.PPrime * i.Sk.QPrime) rnd fuel =
            .error .outOfFuel ∧
          IssueSignature sign hashCommit i msg attributes nonce1 rnd fuel =
            .error .outOfFuel))) := by
  have hd := modInverse?_not_coprime signature.E _ hgcd
  have hmain := proveSignature_no_inverse hashCommit i signature nonce2 rnd fuel hd
  refine ⟨?_, hmain, ?_, ?_⟩
  · intro p hp
    rcases hmain with h | ⟨_, h⟩ <;> rw [h] at hp <;> cases hp
  · intro j hj hpos hco
    rcases hmain with h | ⟨hs, _⟩
    · exact h
    · exfalso
      by_cases hm : 0 < i.Sk.PPrime * i.Sk.QPrime
      · obtain ⟨x, hx⟩ := sampler_total _ rnd hm j fuel ⟨hpos, hco⟩ hj
        rw [hx] at hs; cases hs
      · rw [sampler_nonpos _ rnd fuel (not_lt.mp hm)] at hs
        have hf : fuel ≠ 0 := by omega
        simp [hf] at hs
  · intro H sign msg attributes nonce1 hsign
    have hI := IssueSignature_signed sign hashCommit i msg attributes nonce1 rnd fuel
      signature hsign
    have hmsg := proveSignature_no_inverse hashCommit i signature msg.Nonce2 rnd fuel hd
    constructor
    · intro r hr
      rcases hmsg with h | ⟨_, h⟩ <;> rw [hI, h] at hr <;> cases hr
    · rcases hmsg with h | ⟨hs, h⟩
      · left; rw [hI, h]; rfl
      · right; exact ⟨hs, by rw [hI, h]; rfl⟩

theorem non_invertible_rejected_witness :
    (∀ p, proveSignature demoHash demoIssuer ⟨4, 9, 0⟩ 9 (fun _ => 2) 1 ≠ .ok p) ∧
    (proveSignature demoHash demoIssuer ⟨4, 9, 0⟩ 9 (fun _ => 2) 1 = .error .panic ∨
      (randomElementMultiplicativeGroup (3 * 5) (fun _ => 2) 1 = .error .outOfFuel ∧
        proveSignature demoHash demoIssuer ⟨4, 9, 0⟩ 9 (fun _ => 2) 1 = .error .outOfFuel)) ∧
    proveSignature demoHash demoIssuer ⟨4, 9, 0⟩ 9 (fun _ => 2) 1 = .error .panic ∧
    (∀ r, IssueSignature demoSignBad demoHash demoIssuer
        (⟨1, 9, ()⟩ : IssueCommitmentMessage Unit) [7] 3 (fun _ => 2) 1 ≠ .ok r) :=
  have h := non_invertible_rejected demoHash demoIssuer ⟨4, 9, 0⟩ 9 (fun _ => 2) 1 (by decide)
  ⟨h.1, h.2.1, h.2.2.1 0 (by decide) (by decide) (by decide),
    (h.2.2.2 Unit demoSignBad ⟨1, 9, ()⟩ [7] 3 (by rfl)).1⟩

/-- C5 (sampler postcondition): with all draws in `[0, modulus)`, a value `r`
returned by `randomElementMultiplicativeGroup` is the first draw that is positive
and coprime to the modulus, so `1 ≤ r < modulus`, `gcd(r, modulus) = 1` and `r` is
not the initial `0`; and the sampler does return once a draw within the budget is
positive and coprime to the modulus. -/
theorem sampler_postcondition (modulus : Int) (rnd : Nat → Int) (fuel : Nat)
    (hrange : ∀ k, 0 ≤ rnd k ∧ rnd k < modulus) :
    (∀ r, randomElementMultiplicativeGroup modulus rnd fuel = .ok r →
      (∃ j, j < fuel ∧ r = rnd j ∧
        ∀ k, k < j → ¬ (0 < rnd k ∧ Int.gcd (rnd k) modulus = 1)) ∧
      1 ≤ r ∧ r < modulus ∧ Int.gcd r modulus = 1 ∧ r ≠ 0) ∧
    (∀ j, j < fuel → 0 < rnd j → Int.gcd (rnd j) modulus = 1 →
      ∃ r, randomElementMultiplicativeGroup modulus rnd fuel = .ok r) := by
  constructor
  · intro r hr
    obtain ⟨_, j, hj, hrj, hpos, hco, hfirst⟩ := sampler_ok modulus rnd fuel r hr
    refine ⟨⟨j, hj, hrj, hfirst⟩, hpos, ?_, hco, ne_of_gt hpos⟩
    rw [hrj]; exact (hrange j).2
  · intro j hj hpos hco
    have hm : 0 < modulus := lt_of_le_of_lt (hrange 0).1 (hrange 0).2
    exact sampler_total modulus rnd hm j fuel ⟨hpos, hco⟩ hj

theorem sampler_postcondition_witness :
    (∀ r, randomElementMultiplicativeGroup 15 demoDraws 5 = .ok r →
      (∃ j, j < 5 ∧ r = demoDraws j ∧
        ∀ k, k < j → ¬ (0 < demoDraws k ∧ Int.gcd (demoDraws k) 15 = 1)) ∧
      1 ≤ r ∧ r < 15 ∧ Int.gcd r 15 = 1 ∧ r ≠ 0) ∧
    (∀ j, j < 5 → 0 < demoDraws j → Int.gcd (demoDraws j) 15 = 1 →
      ∃ r, randomElementMultiplicativeGroup 15 demoDraws 5 = .ok r) :=
  sampler_postcondition 15 demoDraws 5 (by
    intro k
    match k with
    | 0 | 1 | 2 | 3 => decide
    | k + 4 => simp [demoDraws])

/-- C6 (`IssueSignature` is signing, then proving): when the signing step fails
with error `e`, `IssueSignature` returns no message and `e`, whatever the random
source and the budget are (no proof is built); when it returns the signature `sig`
and no error, `IssueSignature` is `proveSignature(sig, msg.Nonce2)` with its proof
put next to `sig` in the message, and no error; and the outcome is the same for
every message with the same `U` and `Nonce2` and for every `nonce1`. -/
theorem IssueSignature_composition {H : Type} (sign : SignBlock) (hashCommit : HashCommit)
    (i : CredentialIssuer) (msg : IssueCommitmentMessage H) (attributes : List Int)
    (nonce1 : Int) (rnd : Nat → Int) (fuel : Nat) :
    (∀ s e, signCommitmentAndAttributes sign i msg.U attributes = .ok (s, some e) →
      IssueSignature sign hashCommit i msg attributes nonce1 rnd fuel =
        .ok (none, some e)) ∧
    (∀ sig, signCommitmentAndAttributes sign i msg.U attributes = .ok (some sig, none) →
      IssueSignature sign hashCommit i msg attributes nonce1 rnd fuel =
        (proveSignature hashCommit i sig msg.Nonce2 rnd fuel).map
          (fun proof => (some ⟨sig, proof⟩, none))) ∧
    (∀ (msg' : IssueCommitmentMessage H) (nonce1' : Int),
      msg'.U = msg.U → msg'.Nonce2 = msg.Nonce2 →
      IssueSignature sign hashCommit i msg' attributes nonce1' rnd fuel =
        IssueSignature sign hashCommit i msg attributes nonce1 rnd fuel) := by
  refine ⟨?_, ?_, ?_⟩
  · intro s e h
    exact IssueSignature_failed sign hashCommit i msg attributes nonce1 rnd fuel s e h
  · intro sig h
    exact IssueSignature_signed sign hashCommit i msg attributes nonce1 rnd fuel sig h
  · intro msg' nonce1' hU hN
    simp only [IssueSignature, hU, hN]

theorem IssueSignature_composition_witness :
    IssueSignature demoSign demoHash demoIssuer (⟨1, 9, [3]⟩ : IssueCommitmentMessage (List Int))
        [7, 8, 9] 3 (fun _ => 2) 0 = .ok (none, some "too many attributes") ∧
    IssueSignature demoSign demoHash demoIssuer (⟨1, 9, [3]⟩ : IssueCommitmentMessage (List Int))
        [7] 3 (fun _ => 2) 1 =
      (proveSignature demoHash demoIssuer demoSignature 9 (fun _ => 2) 1).map
        (fun proof => (some ⟨demoSignature, proof⟩, none)) ∧
    IssueSignature demoSign demoHash demoIssuer (⟨1, 9, []⟩ : IssueCommitmentMessage (List Int))
        [7] 4 (fun _ => 2) 1 =
      IssueSignature demoSign demoHash demoIssuer (⟨1, 9, [3]⟩ : IssueCommitmentMessage (List Int))
        [7] 3 (fun _ => 2) 1 :=
  ⟨(IssueSignature_composition demoSign demoHash demoIssuer ⟨1, 9, [3]⟩ [7, 8, 9] 3
      (fun _ => 2) 0).1 none "too many attributes" (by rfl),
    (IssueSignature_composition demoSign demoHash demoIssuer ⟨1, 9, [3]⟩ [7] 3
      (fun _ => 2) 1).2.1 demoSignature (by rfl),
    (IssueSignature_composition demoSign demoHash demoIssuer ⟨1, 9, [3]⟩ [7] 3
      (fun _ => 2) 1).2.2 ⟨1, 9, []⟩ 4 rfl rfl⟩

/-- C10 (the reserved base `R[0]`): when the public key has at least one base,
`signCommitmentAndAttributes(U, attributes)` is `signMessageBlockAndCommitment` on
the issuer's keys, the same `U`, the same attributes and the bases without the
first one: a list of length `len(R) - 1` whose element `k` is `R[k + 1]`. -/
theorem sign_skips_reserved_base (sign : SignBlock) (i : CredentialIssuer) (U : Int)
    (attributes : List Int) (hR : 1 ≤ i.Pk.R.length) :
    signCommitmentAndAttributes sign i U attributes =
        sign i.Sk i.Pk U attributes i.Pk.R.tail ∧
      i.Pk.R.tail.length = i.Pk.R.length - 1 ∧
      ∀ k, i.Pk.R.tail[k]? = i.Pk.R[k + 1]? := by
  refine ⟨?_, by simp, ?_⟩
  · have : ¬ i.Pk.R.length < 1 := by omega
    simp [signCommitmentAndAttributes, this]
  · intro k
    cases i.Pk.R with
    | nil => simp
    | cons a l => simp

theorem sign_skips_reserved_base_witness :
    signCommitmentAndAttributes demoSign demoIssuer 1 [7, 8] =
        demoSign demoIssuer.Sk demoIssuer.Pk 1 [7, 8] [25, 36] ∧
      ([25, 36] : List Int).length = 3 - 1 ∧
      ∀ k, ([25, 36] : List Int)[k]? = ([16, 25, 36] : List Int)[k + 1]? :=
  sign_skips_reserved_base demoSign demoIssuer 1 [7, 8] (by decide)

/-- C7 (identifier formatting): the identifier of an issuer description is its
scheme manager name, a dot and its name; the identifier of a credential type is
its scheme manager name, a dot, its issuer name, a dot and its name; so the
identifier of a credential type is the identifier of the issuer with the same
scheme manager and issuer name, followed by a dot and the credential name, and
`irma-demo`, `alice`, `idCard` give `irma-demo.alice` and `irma-demo.alice.idCard`. -/
theorem identifier_format (id : Issuer) (cd : CredentialType) :
    id.Identifier = id.SchemeManagerName ++ "." ++ id.Name ∧
    cd.Identifier = cd.SchemeManagerName ++ "." ++ cd.IssuerName ++ "." ++ cd.Name ∧
    (cd.SchemeManagerName = id.SchemeManagerName → cd.IssuerName = id.Name →
      cd.Identifier = id.Identifier ++ "." ++ cd.Name) ∧
    (id.SchemeManagerName = "irma-demo" → id.Name = "alice" →
      id.Identifier = "irma-demo.alice") ∧
    (cd.SchemeManagerName = "irma-demo" → cd.IssuerName = "alice" → cd.Name = "idCard" →
      cd.Identifier = "irma-demo.alice.idCard") := by
  refine ⟨rfl, rfl, ?_, ?_, ?_⟩
  · intro h1 h2
    simp only [CredentialType.Identifier, Issuer.Identifier, h1, h2]
  · intro h1 h2
    simp only [Issuer.Identifier, h1, h2]
    decide
  · intro h1 h2 h3
    simp only [CredentialType.Identifier, h1, h2, h3]
    decide

theorem identifier_format_witness :
    demoDescription.Identifier = "irma-demo.alice" ∧
    demoCredential.Identifier = "irma-demo.alice.idCard" ∧
    demoCredential.Identifier = demoDescription.Identifier ++ "." ++ demoCredential.Name :=
  ⟨(identifier_format demoDescription demoCredential).2.2.2.1 rfl rfl,
    (identifier_format demoDescription demoCredential).2.2.2.2 rfl rfl rfl,
    (identifier_format demoDescription demoCredential).2.2.1 rfl rfl⟩

/-- With an index that is not negative, `PublicKey(index)` returns the key at that
position of the issuer's key list, and nil when the index is beyond the list or
the issuer has no key list. -/
theorem PublicKey_of_nonneg (MetaStore : ConfigurationStore) (id : Issuer) (index : Int)
    (h : 0 ≤ index) :
    Issuer.PublicKey MetaStore id index =
      .ok (match MetaStore.PublicKeys id.Identifier with
        | none => none
        | some keys => keys[index.toNat]?) := by
  unfold Issuer.PublicKey
  cases hk : MetaStore.PublicKeys id.Identifier with
  | none => rfl
  | some keys =>
    by_cases hlen : index ≥ (keys.length : Int)
    · have : keys.length ≤ index.toNat := by omega
      simp [hlen, List.getElem?_eq_none this]
    · have hlt : index.toNat < keys.length := by omega
      have h1 : ¬ (index < 0 ∨ (keys.length : Int) ≤ index) := by omega
      have h2 : ¬ index < 0 := by omega
      simp [hlen, sliceIndex, h1, h2, List.getElem?_eq_getElem hlt, Except.map]

/-- With a negative index and a key list that is not nil, `PublicKey(index)` ends
in the index-out-of-range panic of `keys[index]`. -/
theorem PublicKey_of_neg (MetaStore : ConfigurationStore) (id : Issuer) (index : Int)
    (keys : List PublicKey) (hk : MetaStore.PublicKeys id.Identifier = some keys)
    (h : index < 0) :
    Issuer.PublicKey MetaStore id index = .error .panic := by
  have hlen : ¬ index ≥ (keys.length : Int) := by omega
  simp [Issuer.PublicKey, hk, hlen, sliceIndex, h, Except.map]

/-- C8, at the failing input: for the issuer `irma-demo.alice` with two keys in the
store, `PublicKey(-1)` does not return nil but panics, and so does `PublicKey(-1)`
for an issuer with an empty key list; indices `0` and `1` give the two keys, index
`2` and an unknown issuer give nil. -/
theorem PublicKey_negative_index_panics :
    Issuer.PublicKey demoStore demoDescription (-1) = .error .panic ∧
    Issuer.PublicKey demoStore { demoDescription with Name := "bob" } (-1) = .error .panic ∧
    Issuer.PublicKey demoStore demoDescription 0 = .ok (some demoKey0) ∧
    Issuer.PublicKey demoStore demoDescription 1 = .ok (some demoKey1) ∧
    Issuer.PublicKey demoStore demoDescription 2 = .ok none ∧
    Issuer.PublicKey demoStore { demoDescription with Name := "carol" } (-1) = .ok none := by
  refine ⟨?_, ?_, ?_, ?_, ?_, ?_⟩ <;> decide

end Gabi
